import Mathlib

/-!
# Verification of the ECE 18-447 RISC-V simulator memory backend

Shallow embedding of `447src/memory.c` (the segmented memory backend of the
RISC-V 32-bit instruction level simulator), together with proofs of the
specified properties.

Modelling conventions:
* C machine integers (`uint32_t`, `size_t`) are `Nat`, with an explicit
  `% 2^32` where the C arithmetic can wrap.
* The C heap is explicit: a `Heap` maps block identifiers to byte buffers.
  A C pointer into a region's backing buffer is the pair
  (buffer identifier, byte offset); a possibly-NULL buffer pointer is an
  `Option Nat`.  `malloc` allocates a fresh block, `free` removes it; calling
  `free` on an identifier that is not allocated models the undefined behaviour
  of freeing an invalid/dangling pointer.
* Fallible operations return an error code (`Int`, negative on error, as in
  the C code) and the stream of diagnostics they emit on `stderr` is modelled
  by a `List Diag`.
* `assert` failures and undefined behaviour are modelled with `Option`
  result types (`none` = the C execution does not return normally).
-/

/-- `UINT32_MAX` from `<stdint.h>`. -/
def UINT32_MAX : Nat := 4294967295

/-- One simulated memory region/segment (`mem_region_t` from `memory.h`):
base address, maximum permitted size, current size in bytes, the backing
buffer pointer (`none` = NULL, `some id` = heap block `id`), and the hex-file
extension (`none` = NULL). -/
structure MemRegion where
  base_addr : Nat
  max_size : Nat
  size : Nat
  mem : Option Nat
  hex_extension : Option String
deriving DecidableEq, Repr

/-- All the memory in the processor (`memory_t` from `memory.h`). -/
structure Memory where
  num_mem_regions : Nat
  mem_regions : List MemRegion
deriving DecidableEq, Repr

/-- Modelled from the spec: `cpu_state_t` is declared in `sim.h`, which is not
part of the sources; per the spec the simulator state owns a program counter,
the 32 general-purpose registers, the monotonic halt flag and the memory. -/
structure CpuState where
  pc : Nat
  regs : List Nat
  halted : Bool
  memory : Memory
deriving DecidableEq, Repr

/-- The host heap: a fresh-identifier counter and the allocated blocks
(identifier, byte buffer). -/
structure Heap where
  next : Nat
  blocks : List (Nat × List Nat)
deriving DecidableEq, Repr

/-- Look a block up in the heap. -/
def Heap.lookup (h : Heap) (id : Nat) : Option (List Nat) :=
  (h.blocks.find? (fun b => b.1 = id)).map Prod.snd

/-- `malloc`: allocate a fresh block holding the given bytes, returning the
new heap and the block identifier.  (The C `malloc_mem_region` exits the
process on allocation failure, so allocation always succeeds here; the
indeterminate contents of a fresh `malloc` block are modelled as the bytes
passed in.) -/
def Heap.alloc (h : Heap) (bytes : List Nat) : Heap × Nat :=
  (⟨h.next + 1, h.blocks ++ [(h.next, bytes)]⟩, h.next)

/-- `free`: remove the block with the given identifier. -/
def Heap.free (h : Heap) (id : Nat) : Heap :=
  ⟨h.next, h.blocks.filter (fun b => b.1 ≠ id)⟩

/-- Whether the heap currently has a block with this identifier (used to
detect `free` of a pointer that is not allocated, i.e. a double free). -/
def Heap.owns (h : Heap) (id : Nat) : Bool :=
  h.blocks.any (fun b => b.1 = id)

/-- Write one byte inside a block.  A store at an offset at or beyond the
block's length is an out-of-bounds store — undefined behaviour in the C —
and is modelled as leaving the block unchanged (`List.set` out of range is
the identity).  The loader can reach such a store only on a hex file whose
lines are not exactly `MEM_FILE_LINE_LEN` bytes long (the byte-length size
computation then under-counts the lines); no theorem below evaluates the
loader on such a file, and the word-accessor theorems carry explicit
in-bounds hypotheses, so every store a theorem depends on is in bounds. -/
def Heap.writeByte (h : Heap) (id : Nat) (off : Nat) (val : Nat) : Heap :=
  ⟨h.next, h.blocks.map (fun b => if b.1 = id then (b.1, b.2.set off val) else b)⟩

/-- Read one byte from a block (0 for an unmapped block or offset, standing in
for the C out-of-bounds load, which no verified execution path performs). -/
def Heap.readByte (h : Heap) (id : Nat) (off : Nat) : Nat :=
  match h.lookup id with
  | some buf => buf.getD off 0
  | none => 0

/-- A host pointer into a region's backing buffer, as produced by
`&mem_region->mem[offset]`: the region's buffer pointer and a byte offset. -/
abbrev HostPtr := Option Nat × Nat

/-- Dereference `mem_addr[i]`. -/
def readPtrByte (h : Heap) (p : HostPtr) (i : Nat) : Nat :=
  match p.1 with
  | some id => h.readByte id (p.2 + i)
  | none => 0

/-- Store to `mem_addr[i]`. -/
def writePtrByte (h : Heap) (p : HostPtr) (i : Nat) (val : Nat) : Heap :=
  match p.1 with
  | some id => h.writeByte id (p.2 + i) val
  | none => h

/-- Modelled from the spec: `set_byte(b, i)` from `libc_extensions.h` (not in
the sources) places byte `b` at significance position `i`, byte 0 being the
least significant (little-endian).  The `% 256` models the `uint8_t` argument
type. -/
def set_byte (b : Nat) (i : Nat) : Nat := b % 256 * 2 ^ (8 * i)

/-- Modelled from the spec: `get_byte(v, i)` from `libc_extensions.h` (not in
the sources) extracts byte `i` of `v`, byte 0 being the least significant
(little-endian). -/
def get_byte (v : Nat) (i : Nat) : Nat := v / 2 ^ (8 * i) % 256

/-- `mem_read_word` from `memory.c`: read a 32-bit value out of the four
bytes at `mem_addr` in little-endian order. -/
def mem_read_word (h : Heap) (mem_addr : HostPtr) : Nat :=
  let value := 0
  let value := value ||| set_byte (readPtrByte h mem_addr 0) 0
  let value := value ||| set_byte (readPtrByte h mem_addr 1) 1
  let value := value ||| set_byte (readPtrByte h mem_addr 2) 2
  let value := value ||| set_byte (readPtrByte h mem_addr 3) 3
  value

/-- `mem_write_word` from `memory.c`: write a 32-bit value to the four bytes
at `mem_addr` in little-endian order. -/
def mem_write_word (h : Heap) (mem_addr : HostPtr) (value : Nat) : Heap :=
  let h := writePtrByte h mem_addr 0 (get_byte value 0)
  let h := writePtrByte h mem_addr 1 (get_byte value 1)
  let h := writePtrByte h mem_addr 2 (get_byte value 2)
  let h := writePtrByte h mem_addr 3 (get_byte value 3)
  h

/-- The loop body of `mem_find_address`: scan the regions in table order; a
region matches iff `base_addr <= addr && addr < base_addr + size` (the
region end address is computed in `uint32_t`, hence the `% 2^32`). -/
def findAddressIn : List MemRegion → Nat → Option HostPtr
  | [], _ => none
  | r :: rs, addr =>
    let region_end_addr := (r.base_addr + r.size) % (UINT32_MAX + 1)
    if r.base_addr ≤ addr ∧ addr < region_end_addr then
      some (r.mem, addr - r.base_addr)
    else
      findAddressIn rs addr

/-- The first `num_mem_regions` entries of the region array, which is what
the C loops `for (i = 0; i < num_mem_regions; i++)` iterate over. -/
def activeRegions (cpu : CpuState) : List MemRegion :=
  cpu.memory.mem_regions.take cpu.memory.num_mem_regions

/-- `mem_find_address` from `memory.c`: find the host position corresponding
to a simulated address, or `none` (NULL) if no region contains it. -/
def mem_find_address (cpu : CpuState) (addr : Nat) : Option HostPtr :=
  findAddressIn (activeRegions cpu) addr

/-- `mem_read32` from `memory.c`: on translation failure, halt the simulator
and return the sentinel 0; otherwise read the word. -/
def mem_read32 (cpu : CpuState) (h : Heap) (addr : Nat) : CpuState × Nat :=
  match mem_find_address cpu addr with
  | none => ({ cpu with halted := true }, 0)
  | some mem_addr => (cpu, mem_read_word h mem_addr)

/-- `mem_write32` from `memory.c`: on translation failure, halt the simulator
and write nothing; otherwise write the word. -/
def mem_write32 (cpu : CpuState) (h : Heap) (addr : Nat) (value : Nat) :
    CpuState × Heap :=
  match mem_find_address cpu addr with
  | none => ({ cpu with halted := true }, h)
  | some mem_addr => (cpu, mem_write_word h mem_addr value)

/-- The loop body of `mem_range_valid`: is the range completely contained in
some region? -/
def rangeValidIn : List MemRegion → Nat → Nat → Bool
  | [], _, _ => false
  | r :: rs, start_addr, end_addr =>
    let region_end_addr := (r.base_addr + r.size) % (UINT32_MAX + 1)
    if r.base_addr ≤ start_addr ∧ end_addr < region_end_addr then
      true
    else
      rangeValidIn rs start_addr end_addr

/-- `mem_range_valid` from `memory.c`: check that the inclusive range
`[start_addr, end_addr]` is valid.  The function begins with
`assert(start_addr < end_addr)`; a failing assertion aborts the process,
modelled by the result `none`. -/
def mem_range_valid (cpu : CpuState) (start_addr : Nat) (end_addr : Nat) :
    Option Bool :=
  if start_addr < end_addr then
    some (rangeValidIn (activeRegions cpu) start_addr end_addr)
  else
    none

/-- The loop of `mem_unload_program`: free each region whose buffer pointer
is non-NULL.  The C code never clears `mem_region->mem` after `free`, so a
region freed earlier still presents a non-NULL (dangling) pointer here;
freeing an identifier the heap does not own is a double free, i.e. undefined
behaviour, modelled by the result `none`. -/
def unloadRegions : List MemRegion → Heap → Option Heap
  | [], h => some h
  | r :: rs, h =>
    match r.mem with
    | none => unloadRegions rs h
    | some id => if h.owns id then unloadRegions rs (h.free id) else none

/-- `mem_unload_program` from `memory.c`: free every region buffer whose
pointer is non-NULL.  The region array itself is not modified (in particular
the `mem` pointers are left dangling). -/
def mem_unload_program (cpu : CpuState) (h : Heap) : Option Heap :=
  unloadRegions (activeRegions cpu) h

/-- A diagnostic emitted on `stderr` by the load path. -/
inductive Diag where
  | openError (path : String)
  | oversizeError (path : String)
  | parseError (path : String) (line_num : Nat) (text : List Char)
deriving DecidableEq, Repr

/-- The host file system seen by the loader: a map from paths to file
contents.  A file's contents are its raw lines, each line including its
terminator characters, so that the file's byte length is the sum of the line
lengths (lines are lists of characters). -/
structure FS where
  files : List (String × List (List Char))
deriving DecidableEq, Repr

/-- `fopen` for reading: look a file up by path. -/
def FS.lookup (fs : FS) (path : String) : Option (List (List Char)) :=
  (fs.files.find? (fun f => f.1 = path)).map Prod.snd

/-- The byte length of a file (`ftell` after `fseek` to the end). -/
def fileSize (lines : List (List Char)) : Nat :=
  (lines.map List.length).sum

/-- `line[strcspn(line, "\r\n")] = '\0'`: truncate the line at the first
carriage return or newline. -/
def stripNewline (line : List Char) : List Char :=
  line.takeWhile (fun c => !(c == '\r' || c == '\n'))

/-- The value of one hexadecimal digit. -/
def hexDigitValue (c : Char) : Option Nat :=
  if '0' ≤ c ∧ c ≤ '9' then some (c.toNat - '0'.toNat)
  else if 'a' ≤ c ∧ c ≤ 'f' then some (c.toNat - 'a'.toNat + 10)
  else if 'A' ≤ c ∧ c ≤ 'F' then some (c.toNat - 'A'.toNat + 10)
  else none

/-- Accumulate the value of a string of hexadecimal digits. -/
def hexValue : List Char → Nat → Option Nat
  | [], acc => some acc
  | c :: cs, acc =>
    match hexDigitValue c with
    | none => none
    | some d => hexValue cs (acc * 16 + d)

/-- Modelled from the spec: `parse_uint32_hex` from `libc_extensions.h` (not
in the sources) parses a line of text as an unsigned 32-bit hexadecimal
integer, failing (negative return) on an empty line, a non-hexadecimal
character, or a value that does not fit in 32 bits. -/
def parse_uint32_hex (text : List Char) : Option Nat :=
  if text = [] then none
  else
    match hexValue text 0 with
    | none => none
    | some v => if v ≤ UINT32_MAX then some v else none

/-- The `getline` loop of `load_hex_file`: strip each line's terminator,
parse it as a 32-bit hexadecimal word and write it little-endian at offset
`line_num * 4` of the region buffer; on a parse failure emit the diagnostic
naming the file path, the (0-based) line number and the stripped text, and
break out of the loop.  The function then returns
`(feof(hex_file)) ? 0 : rc`: the lines here are the raw `getline` results
(terminators included), and `getline` sets the stream's end-of-file
indicator exactly while reading a line with no terminating newline (only
possible for the file's final line), so a parse failure on such a line
returns 0 — reported as *success* — while a parse failure on a
newline-terminated line returns the negative parse code.  Reading past the
last line (or an empty file) sets the indicator and returns 0. -/
def loadHexLines (h : Heap) (region_mem : Option Nat) (hex_path : String)
    (line_num : Nat) : List (List Char) → Heap × Int × List Diag
  | [] => (h, 0, [])
  | line :: rest =>
    let text := stripNewline line
    match parse_uint32_hex text with
    | none =>
      (h, if line.contains '\n' then -1 else 0,
       [Diag.parseError hex_path line_num text])
    | some value =>
      let offset := line_num * 4
      let h2 := mem_write_word h (region_mem, offset) value
      loadHexLines h2 region_mem hex_path (line_num + 1) rest

/-- `load_hex_file` from `memory.c`: parse the whole hex file into the
region's buffer, starting at line 0.  Returns 0 at end of file — including,
per the final `(feof(hex_file)) ? 0 : rc`, when the parse failure was on an
unterminated final line — and the negative parse code when a
newline-terminated line fails to parse. -/
def load_hex_file (h : Heap) (mem_region : MemRegion) (lines : List (List Char))
    (hex_path : String) : Heap × Int × List Diag :=
  loadHexLines h mem_region.mem hex_path 0 lines

/-- `MEM_FILE_LINE_LEN` from `memory.c`: 8 hex digits plus the newline. -/
def MEM_FILE_LINE_LEN : Nat := 8 + 1

/-- `-EFBIG`, the code returned for an oversized hex file. -/
def EFBIG : Int := 27

/-- `load_mem_region` from `memory.c`: open the hex file (negative `errno`
code if that fails, modelled as -2), derive the region size from the file's
byte length (`size = file_size / MEM_FILE_LINE_LEN * 4`), fail with `-EFBIG`
if it exceeds `max_size` (before any allocation), otherwise allocate the
buffer and parse the file into it, freeing the buffer again (and nulling the
pointer) if parsing fails. -/
def load_mem_region (h : Heap) (mem_region : MemRegion) (hex_path : String)
    (fs : FS) : Heap × MemRegion × Int × List Diag :=
  match fs.lookup hex_path with
  | none => (h, mem_region, -2, [Diag.openError hex_path])
  | some lines =>
    let file_size := fileSize lines
    let num_lines := file_size / MEM_FILE_LINE_LEN
    let mem_region := { mem_region with size := num_lines * 4 }
    if mem_region.size > mem_region.max_size then
      (h, mem_region, -EFBIG, [Diag.oversizeError hex_path])
    else
      let alloc := h.alloc (List.replicate mem_region.size 0)
      let mem_region := { mem_region with mem := some alloc.2 }
      let res := load_hex_file alloc.1 mem_region lines hex_path
      if res.2.1 < 0 then
        (res.1.free alloc.2, { mem_region with mem := none }, res.2.1, res.2.2)
      else
        (res.1, mem_region, res.2.1, res.2.2)

/-- Modelled from the spec: the address-space layout constants from
`memory_segments.h` / `riscv_abi.h` headers that are not part of the sources.
Per the spec they are five fixed, disjoint, ascending ranges agreed with the
toolchain; the development is parametric in their values. -/
structure Layout where
  USER_TEXT_START : Nat
  USER_DATA_START : Nat
  STACK_START : Nat
  STACK_END : Nat
  STACK_SIZE : Nat
  KERNEL_TEXT_START : Nat
  KERNEL_DATA_START : Nat
deriving DecidableEq, Repr

/-- `USER_TEXT_REGION` from `memory.c` (a static `mem_region_t`; the fields
not named in the initializer are zero / NULL). -/
def USER_TEXT_REGION (l : Layout) : MemRegion :=
  { base_addr := l.USER_TEXT_START
    max_size := l.USER_DATA_START - l.USER_TEXT_START
    size := 0
    mem := none
    hex_extension := some ".text.hex" }

/-- `USER_DATA_REGION` from `memory.c`. -/
def USER_DATA_REGION (l : Layout) : MemRegion :=
  { base_addr := l.USER_DATA_START
    max_size := l.STACK_START - l.USER_DATA_START
    size := 0
    mem := none
    hex_extension := some ".data.hex" }

/-- `STACK_REGION` from `memory.c` (no hex file: anonymous region). -/
def STACK_REGION (l : Layout) : MemRegion :=
  { base_addr := l.STACK_END - l.STACK_SIZE
    max_size := l.STACK_SIZE
    size := 0
    mem := none
    hex_extension := none }

/-- `KERNEL_TEXT_REGION` from `memory.c`. -/
def KERNEL_TEXT_REGION (l : Layout) : MemRegion :=
  { base_addr := l.KERNEL_TEXT_START
    max_size := l.KERNEL_DATA_START - l.KERNEL_TEXT_START
    size := 0
    mem := none
    hex_extension := some ".ktext.hex" }

/-- `KERNEL_DATA_REGION` from `memory.c`. -/
def KERNEL_DATA_REGION (l : Layout) : MemRegion :=
  { base_addr := l.KERNEL_DATA_START
    max_size := UINT32_MAX - l.KERNEL_DATA_START
    size := 0
    mem := none
    hex_extension := some ".kdata.hex" }

/-- `MEM_REGIONS` from `memory.c`: the region template table, in order. -/
def MEM_REGIONS (l : Layout) : List MemRegion :=
  [USER_TEXT_REGION l, USER_DATA_REGION l, STACK_REGION l,
   KERNEL_TEXT_REGION l, KERNEL_DATA_REGION l]

/-- A region entry as left by `memset(memory->mem_regions, 0, ...)`. -/
def zeroRegion : MemRegion :=
  { base_addr := 0, max_size := 0, size := 0, mem := none, hex_extension := none }

/-- `REG_SP` from `riscv_abi.h`. -/
def REG_SP : Nat := 2

/-- `REG_GP` from `riscv_abi.h`. -/
def REG_GP : Nat := 3

/-- The region loop of `mem_load_program`.  `templates` are the remaining
entries of `MEM_REGIONS`, `done` the region entries already initialized in
the CPU state.  An anonymous region (no hex extension) gets
`size := max_size` and a fresh buffer; otherwise the region is loaded from
`program_path ++ extension`.  On a failure the loop breaks: the CPU then
holds `done`, the failed region and the still-`memset`-zero remaining
entries, and `mem_unload_program`'s loop is run over exactly those entries to
roll the load back (`.getD` keeps the function total on the double-free
result, which the rollback lemma below proves impossible here). -/
def loadLoop (fs : FS) (program_path : String) :
    List MemRegion → List MemRegion → Heap → List Diag →
    List MemRegion × Heap × Int × List Diag
  | [], done, h, diags => (done, h, 0, diags)
  | tmpl :: rest, done, h, diags =>
    match tmpl.hex_extension with
    | none =>
      let r := { tmpl with size := tmpl.max_size }
      let alloc := h.alloc (List.replicate r.size 0)
      loadLoop fs program_path rest (done ++ [{ r with mem := some alloc.2 }])
        alloc.1 diags
    | some ext =>
      let hex_path := program_path ++ ext
      let res := load_mem_region h tmpl hex_path fs
      if res.2.2.1 < 0 then
        let full := done ++ [res.2.1] ++ List.replicate rest.length zeroRegion
        let h3 := (unloadRegions full res.1).getD res.1
        (full, h3, res.2.2.1, diags ++ res.2.2.2)
      else
        loadLoop fs program_path rest (done ++ [res.2.1]) res.1
          (diags ++ res.2.2.2)

/-- `mem_load_program` from `memory.c`: set `num_mem_regions`, zero the
region array, run the region loop (with rollback on failure), and then —
unconditionally, whether or not the load succeeded — point the PC at the
user text segment, the stack pointer (x2) at `STACK_END` and the global
pointer (x3) at the user data segment.  Returns the new CPU state, the new
heap, the return code and the emitted diagnostics. -/
def mem_load_program (l : Layout) (cpu : CpuState) (program_path : String)
    (fs : FS) (h : Heap) : CpuState × Heap × Int × List Diag :=
  let res := loadLoop fs program_path (MEM_REGIONS l) [] h []
  let cpu := { cpu with
    memory := { num_mem_regions := 5, mem_regions := res.1 } }
  let cpu := { cpu with
    pc := l.USER_TEXT_START
    regs := (cpu.regs.set REG_SP l.STACK_END).set REG_GP l.USER_DATA_START }
  (cpu, res.2.1, res.2.2.1, res.2.2.2)

/-! ## Properties of the address translator -/

/-- The membership condition of the translation scan: the address lies in the
region's current `[base_addr, base_addr + size)` extent. -/
def regionSpan (r : MemRegion) (addr : Nat) : Prop :=
  r.base_addr ≤ addr ∧ addr < r.base_addr + r.size

instance (r : MemRegion) (addr : Nat) : Decidable (regionSpan r addr) := by
  unfold regionSpan; infer_instance

/-- The spec's data-model invariant: `base_addr + size` does not overflow the
32-bit space. -/
def regionsNoOverflow (rs : List MemRegion) : Prop :=
  ∀ r ∈ rs, r.base_addr + r.size ≤ UINT32_MAX

instance (rs : List MemRegion) : Decidable (regionsNoOverflow rs) := by
  unfold regionsNoOverflow; infer_instance

/-- The spec's data-model invariant: the regions cover pairwise disjoint
address ranges. -/
def regionsDisjoint (rs : List MemRegion) : Prop :=
  rs.Pairwise (fun r s =>
    r.base_addr + r.size ≤ s.base_addr ∨ s.base_addr + s.size ≤ r.base_addr)

instance (rs : List MemRegion) : Decidable (regionsDisjoint rs) := by
  unfold regionsDisjoint; infer_instance

theorem findAddressIn_of_span :
    ∀ (rs : List MemRegion) (addr i : Nat) (hi : i < rs.length),
    regionsNoOverflow rs → regionsDisjoint rs →
    regionSpan (rs.get ⟨i, hi⟩) addr →
    findAddressIn rs addr =
      some ((rs.get ⟨i, hi⟩).mem, addr - (rs.get ⟨i, hi⟩).base_addr) := by
  intro rs
  induction rs with
  | nil => intro addr i hi; exact absurd hi (by simp)
  | cons r rs ih =>
    intro addr i hi hov hdis hspan
    have hovr : r.base_addr + r.size ≤ UINT32_MAX := hov r (by simp)
    have hmod : (r.base_addr + r.size) % (UINT32_MAX + 1) = r.base_addr + r.size :=
      Nat.mod_eq_of_lt (by omega)
    cases i with
    | zero =>
      simp only [List.get] at hspan
      simp only [findAddressIn, hmod]
      rw [if_pos ⟨hspan.1, by exact hspan.2⟩]
      rfl
    | succ j =>
      simp only [List.get] at hspan
      have hmem : rs.get ⟨j, by simpa using hi⟩ ∈ rs := List.get_mem rs j _
      have hdisj := (List.pairwise_cons.mp hdis).1 _ hmem
      have hnomatch : ¬(r.base_addr ≤ addr ∧ addr < r.base_addr + r.size) := by
        rcases hspan with ⟨h1, h2⟩
        rcases hdisj with h3 | h3 <;> omega
      simp only [findAddressIn, hmod]
      rw [if_neg hnomatch]
      exact ih addr j (by simpa using hi) (fun s hs => hov s (by simp [hs]))
        (List.pairwise_cons.mp hdis).2 hspan

theorem findAddressIn_of_no_span :
    ∀ (rs : List MemRegion) (addr : Nat),
    regionsNoOverflow rs → (∀ r ∈ rs, ¬ regionSpan r addr) →
    findAddressIn rs addr = none := by
  intro rs
  induction rs with
  | nil => intro addr _ _; rfl
  | cons r rs ih =>
    intro addr hov hno
    have hovr : r.base_addr + r.size ≤ UINT32_MAX := hov r (by simp)
    have hmod : (r.base_addr + r.size) % (UINT32_MAX + 1) = r.base_addr + r.size :=
      Nat.mod_eq_of_lt (by omega)
    have hno' : ¬(r.base_addr ≤ addr ∧ addr < r.base_addr + r.size) :=
      hno r (by simp)
    simp only [findAddressIn, hmod]
    rw [if_neg hno']
    exact ih addr (fun s hs => hov s (by simp [hs])) (fun s hs => hno s (by simp [hs]))

/-- **C1.** For every address `addr` with
`region.base_addr ≤ addr < region.base_addr + region.size` for some region in
the table, `mem_find_address` returns the position inside that region's
backing buffer at offset `addr - base_addr`; for every address outside all
regions' `[base, base+size)` spans (including the unallocated headroom
between `size` and `max_size`), it returns no mapping (NULL, i.e. `none`). -/
theorem mem_find_address_correct (cpu : CpuState) (addr : Nat)
    (hnum : cpu.memory.num_mem_regions = cpu.memory.mem_regions.length)
    (hov : regionsNoOverflow cpu.memory.mem_regions)
    (hdis : regionsDisjoint cpu.memory.mem_regions) :
    (∀ (i : Nat) (hi : i < cpu.memory.mem_regions.length),
      regionSpan (cpu.memory.mem_regions.get ⟨i, hi⟩) addr →
      mem_find_address cpu addr =
        some ((cpu.memory.mem_regions.get ⟨i, hi⟩).mem,
          addr - (cpu.memory.mem_regions.get ⟨i, hi⟩).base_addr))
    ∧ ((∀ r ∈ cpu.memory.mem_regions, ¬ regionSpan r addr) →
      mem_find_address cpu addr = none) := by
  have hact : activeRegions cpu = cpu.memory.mem_regions := by
    unfold activeRegions
    rw [hnum, List.take_length]
  constructor
  · intro i hi hspan
    unfold mem_find_address
    rw [hact]
    exact findAddressIn_of_span _ addr i hi hov hdis hspan
  · intro hno
    unfold mem_find_address
    rw [hact]
    exact findAddressIn_of_no_span _ addr hov hno

/-- Witness state for the translator claims: a CPU whose region table holds
two loaded regions (sizes below `max_size`, leaving addressable headroom
above each). -/
def cpuT : CpuState :=
  { pc := 0, regs := List.replicate 32 0, halted := false,
    memory :=
      { num_mem_regions := 2,
        mem_regions :=
          [{ base_addr := 256, max_size := 256, size := 16, mem := some 0,
             hex_extension := some ".text.hex" },
           { base_addr := 512, max_size := 256, size := 8, mem := some 1,
             hex_extension := some ".data.hex" }] } }

/-- Witness for C1: inside the second region the translator returns that
region's buffer at offset `addr - base`; just past its loaded size (in the
headroom below `max_size`) it returns NULL. -/
theorem mem_find_address_correct_witness :
    mem_find_address cpuT 517 = some (some 1, 5)
    ∧ mem_find_address cpuT 520 = none := by
  constructor
  · exact (mem_find_address_correct cpuT 517 (by decide) (by decide)
      (by decide)).1 1 (by decide) (by decide)
  · exact (mem_find_address_correct cpuT 520 (by decide) (by decide)
      (by decide)).2 (by decide)

/-- **C2.** For every address for which translation fails, `mem_read32` sets
the halt flag and returns 0 as a defined sentinel, and `mem_write32` sets the
halt flag and performs no mutation of any region's backing memory (the heap
is returned unchanged). -/
theorem mem_access_fault (cpu : CpuState) (h : Heap) (addr value : Nat)
    (hfind : mem_find_address cpu addr = none) :
    mem_read32 cpu h addr = ({ cpu with halted := true }, 0)
    ∧ mem_write32 cpu h addr value = ({ cpu with halted := true }, h) := by
  constructor
  · unfold mem_read32
    rw [hfind]
  · unfold mem_write32
    rw [hfind]

/-- Witness for C2: address 520 is unmapped in `cpuT` (headroom above the
loaded size); the faulting read halts and returns 0, the faulting write
halts and leaves the heap unchanged. -/
theorem mem_access_fault_witness :
    mem_read32 cpuT ⟨2, [(0, List.replicate 16 0), (1, List.replicate 8 0)]⟩ 520
        = ({ cpuT with halted := true }, 0)
    ∧ mem_write32 cpuT ⟨2, [(0, List.replicate 16 0), (1, List.replicate 8 0)]⟩ 520 99
        = ({ cpuT with halted := true },
           ⟨2, [(0, List.replicate 16 0), (1, List.replicate 8 0)]⟩) :=
  mem_access_fault cpuT ⟨2, [(0, List.replicate 16 0), (1, List.replicate 8 0)]⟩
    520 99 (by decide)

/-- **C10.** On a faulting memory access, `mem_read32` and `mem_write32`
change nothing except the halt flag: the registers, the program counter, the
whole region table (each region's size, base and buffer pointer) and the
backing heap are unchanged. -/
theorem mem_access_fault_frame (cpu : CpuState) (h : Heap) (addr value : Nat)
    (hfind : mem_find_address cpu addr = none) :
    ((mem_read32 cpu h addr).1.pc = cpu.pc
      ∧ (mem_read32 cpu h addr).1.regs = cpu.regs
      ∧ (mem_read32 cpu h addr).1.memory = cpu.memory
      ∧ (mem_read32 cpu h addr).1.halted = true)
    ∧ ((mem_write32 cpu h addr value).1.pc = cpu.pc
      ∧ (mem_write32 cpu h addr value).1.regs = cpu.regs
      ∧ (mem_write32 cpu h addr value).1.memory = cpu.memory
      ∧ (mem_write32 cpu h addr value).1.halted = true
      ∧ (mem_write32 cpu h addr value).2 = h) := by
  unfold mem_read32 mem_write32
  rw [hfind]
  exact ⟨⟨rfl, rfl, rfl, rfl⟩, rfl, rfl, rfl, rfl, rfl⟩

/-- Witness for C10: the faulting access at 520 leaves every `cpuT` field but
the halt flag, and the heap, unchanged. -/
theorem mem_access_fault_frame_witness :
    ((mem_read32 cpuT ⟨0, []⟩ 520).1.pc = cpuT.pc
      ∧ (mem_read32 cpuT ⟨0, []⟩ 520).1.regs = cpuT.regs
      ∧ (mem_read32 cpuT ⟨0, []⟩ 520).1.memory = cpuT.memory
      ∧ (mem_read32 cpuT ⟨0, []⟩ 520).1.halted = true)
    ∧ ((mem_write32 cpuT ⟨0, []⟩ 520 7).1.pc = cpuT.pc
      ∧ (mem_write32 cpuT ⟨0, []⟩ 520 7).1.regs = cpuT.regs
      ∧ (mem_write32 cpuT ⟨0, []⟩ 520 7).1.memory = cpuT.memory
      ∧ (mem_write32 cpuT ⟨0, []⟩ 520 7).1.halted = true
      ∧ (mem_write32 cpuT ⟨0, []⟩ 520 7).2 = ⟨0, []⟩) :=
  mem_access_fault_frame cpuT ⟨0, []⟩ 520 7 (by decide)

theorem rangeValidIn_iff :
    ∀ (rs : List MemRegion) (s e : Nat), regionsNoOverflow rs →
    (rangeValidIn rs s e = true ↔
      ∃ r ∈ rs, r.base_addr ≤ s ∧ e < r.base_addr + r.size) := by
  intro rs
  induction rs with
  | nil => intro s e _; simp [rangeValidIn]
  | cons r rs ih =>
    intro s e hov
    have hovr : r.base_addr + r.size ≤ UINT32_MAX := hov r (by simp)
    have hmod : (r.base_addr + r.size) % (UINT32_MAX + 1) = r.base_addr + r.size :=
      Nat.mod_eq_of_lt (by omega)
    simp only [rangeValidIn, hmod]
    by_cases hc : r.base_addr ≤ s ∧ e < r.base_addr + r.size
    · rw [if_pos hc]
      simp [hc]
    · rw [if_neg hc]
      rw [ih s e (fun t ht => hov t (by simp [ht]))]
      constructor
      · rintro ⟨t, ht, h1, h2⟩
        exact ⟨t, by simp [ht], h1, h2⟩
      · rintro ⟨t, ht, h1, h2⟩
        rcases List.mem_cons.mp ht with rfl | ht2
        · exact absurd ⟨h1, h2⟩ hc
        · exact ⟨t, ht2, h1, h2⟩

/-- **C5.** `mem_range_valid(state, start, end)` returns true if and only if
`start < end` and the closed span `[start, end]` lies entirely within a
single region's current `[base_addr, base_addr + size)` extent; in
particular it is not true for spans that straddle two regions or exceed a
region's loaded size even when still within `max_size`.  (For
`start ≥ end` the C function's `assert` aborts instead of returning,
modelled by the result `none`.) -/
theorem mem_range_valid_iff (cpu : CpuState) (start_addr end_addr : Nat)
    (hnum : cpu.memory.num_mem_regions = cpu.memory.mem_regions.length)
    (hov : regionsNoOverflow cpu.memory.mem_regions) :
    mem_range_valid cpu start_addr end_addr = some true ↔
      (start_addr < end_addr ∧
        ∃ r ∈ cpu.memory.mem_regions,
          r.base_addr ≤ start_addr ∧ end_addr < r.base_addr + r.size) := by
  have hact : activeRegions cpu = cpu.memory.mem_regions := by
    unfold activeRegions
    rw [hnum, List.take_length]
  unfold mem_range_valid
  rw [hact]
  by_cases hlt : start_addr < end_addr
  · rw [if_pos hlt]
    simp only [Option.some_inj, hlt, true_and]
    exact rangeValidIn_iff _ _ _ hov
  · rw [if_neg hlt]
    simp [hlt]

/-- Witness for C5: in `cpuT`, the span `[260, 263]` inside the first
region's loaded extent is valid; the span `[260, 300]`, which leaves the
loaded extent while staying below the region's `max_size` headroom, is not;
and the straddling span `[260, 516]` is not. -/
theorem mem_range_valid_iff_witness :
    mem_range_valid cpuT 260 263 = some true
    ∧ ¬ mem_range_valid cpuT 260 300 = some true
    ∧ ¬ mem_range_valid cpuT 260 516 = some true := by
  refine ⟨?_, ?_, ?_⟩
  · exact (mem_range_valid_iff cpuT 260 263 (by decide) (by decide)).mpr
      (by decide)
  · intro hfalse
    have := (mem_range_valid_iff cpuT 260 300 (by decide) (by decide)).mp hfalse
    exact absurd this (by decide)
  · intro hfalse
    have := (mem_range_valid_iff cpuT 260 516 (by decide) (by decide)).mp hfalse
    exact absurd this (by decide)

/-! ## Unloading and the double free -/

/-- A CPU state as left behind by a successful load-then-unload cycle would
be: here, a state with one region whose buffer (block 0) is allocated.  The
same value also describes the state *after* `mem_unload_program`, because
the C function frees the buffers but never clears the `mem` pointers. -/
def cpuU : CpuState :=
  { pc := 0, regs := [], halted := false,
    memory :=
      { num_mem_regions := 5,
        mem_regions :=
          [{ base_addr := 256, max_size := 256, size := 4, mem := some 0,
             hex_extension := none },
           zeroRegion, zeroRegion, zeroRegion, zeroRegion] } }

/-- **C4.** `mem_unload_program` does release every currently allocated
region buffer (first conjunct: the allocated block 0 is freed, leaving the
heap empty), but it is *not* idempotent: because the C code never nulls
`mem_region->mem` after `free`, the region still holds the dangling pointer,
and a second consecutive call — with nothing allocated any more — calls
`free` on the already-freed pointer.  That double free is undefined
behaviour (modelled by the result `none`), not the no-op the claim states
(which would be `some` of the unchanged empty heap). -/
theorem mem_unload_program_not_idempotent :
    mem_unload_program cpuU ⟨1, [(0, [0, 0, 0, 0])]⟩ = some ⟨1, []⟩
    ∧ mem_unload_program cpuU ⟨1, []⟩ = none := by
  constructor
  · decide
  · decide

/-! ## Properties of the word accessor -/

theorem or_eq_add_of_lt {a k : Nat} (ha : a < 2 ^ k) (b : Nat) :
    a ||| 2 ^ k * b = a + 2 ^ k * b := by
  rw [Nat.or_comm, ← Nat.mul_add_lt_is_or ha b, Nat.add_comm]

theorem or_mul_eq_add {a b m k : Nat} (hm : m = 2 ^ k) (ha : a < m) :
    a ||| b * m = a + b * m := by
  subst hm
  rw [mul_comm b]
  exact or_eq_add_of_lt ha b

/-- `mem_read_word` decodes its four bytes with byte 0 as the least
significant byte (little-endian). -/
theorem mem_read_word_decode (h : Heap) (p : HostPtr) :
    mem_read_word h p =
      readPtrByte h p 0 % 256 + readPtrByte h p 1 % 256 * 256
        + readPtrByte h p 2 % 256 * 65536 + readPtrByte h p 3 % 256 * 16777216 := by
  simp only [mem_read_word, set_byte]
  have e0 : (2 : Nat) ^ (8 * 0) = 1 := by norm_num
  have e1 : (2 : Nat) ^ (8 * 1) = 256 := by norm_num
  have e2 : (2 : Nat) ^ (8 * 2) = 65536 := by norm_num
  have e3 : (2 : Nat) ^ (8 * 3) = 16777216 := by norm_num
  rw [e0, e1, e2, e3, Nat.zero_or, Nat.mul_one]
  rw [or_mul_eq_add (a := readPtrByte h p 0 % 256) (b := readPtrByte h p 1 % 256)
    (k := 8) (by norm_num) (by omega)]
  rw [or_mul_eq_add (a := readPtrByte h p 0 % 256 + readPtrByte h p 1 % 256 * 256)
    (b := readPtrByte h p 2 % 256) (k := 16) (by norm_num) (by omega)]
  rw [or_mul_eq_add
    (a := readPtrByte h p 0 % 256 + readPtrByte h p 1 % 256 * 256
      + readPtrByte h p 2 % 256 * 65536)
    (b := readPtrByte h p 3 % 256) (k := 24) (by norm_num) (by omega)]

theorem find?_map_writeByte (l : List (Nat × List Nat)) (id off b : Nat) :
    (l.map (fun x => if x.1 = id then (x.1, x.2.set off b) else x)).find?
        (fun x => x.1 = id)
      = (l.find? (fun x => x.1 = id)).map (fun x => (x.1, x.2.set off b)) := by
  induction l with
  | nil => rfl
  | cons hd tl ih =>
    by_cases hh : hd.1 = id
    · simp [List.find?_cons, hh]
    · simp [List.find?_cons, hh, ih]

theorem find?_map_writeByte_ne (l : List (Nat × List Nat)) (id id' off b : Nat)
    (hne : id' ≠ id) :
    (l.map (fun x => if x.1 = id then (x.1, x.2.set off b) else x)).find?
        (fun x => x.1 = id')
      = l.find? (fun x => x.1 = id') := by
  induction l with
  | nil => rfl
  | cons hd tl ih =>
    by_cases hh : hd.1 = id'
    · have h2 : ¬ hd.1 = id := by rw [hh]; exact hne
      simp [List.find?_cons, hh, h2, hne]
    · by_cases h2 : hd.1 = id
      · simp [List.find?_cons, hh, h2, ih, Ne.symm hne]
      · simp [List.find?_cons, hh, h2, ih]

theorem Heap.lookup_writeByte_self (h : Heap) (id off b : Nat) :
    (h.writeByte id off b).lookup id
      = (h.lookup id).map (fun buf => buf.set off b) := by
  unfold Heap.writeByte Heap.lookup
  simp only [find?_map_writeByte]
  cases h.blocks.find? (fun x => x.1 = id) <;> rfl

theorem Heap.lookup_writeByte_ne (h : Heap) (id id' off b : Nat)
    (hne : id' ≠ id) :
    (h.writeByte id off b).lookup id' = h.lookup id' := by
  unfold Heap.writeByte Heap.lookup
  rw [find?_map_writeByte_ne _ _ _ _ _ hne]

/-- After `mem_write_word` through a pointer into block `id`, block `id`
holds the four little-endian bytes of the value at the pointer's offset. -/
theorem lookup_mem_write_word (h : Heap) (id off v : Nat) :
    (mem_write_word h (some id, off) v).lookup id
      = (h.lookup id).map (fun buf =>
          (((buf.set off (get_byte v 0)).set (off + 1) (get_byte v 1)).set
            (off + 2) (get_byte v 2)).set (off + 3) (get_byte v 3)) := by
  unfold mem_write_word writePtrByte
  rw [Heap.lookup_writeByte_self, Heap.lookup_writeByte_self,
    Heap.lookup_writeByte_self, Heap.lookup_writeByte_self]
  cases h.lookup id <;> simp

theorem getD_set_self (l : List Nat) (j x : Nat) (hj : j < l.length) :
    (l.set j x).getD j 0 = x := by
  rw [List.getD_eq_getElem?_getD, List.getElem?_set_self hj]
  rfl

theorem getD_set_ne (l : List Nat) (j k x : Nat) (hjk : j ≠ k) :
    (l.set j x).getD k 0 = l.getD k 0 := by
  rw [List.getD_eq_getElem?_getD, List.getElem?_set_ne hjk,
    ← List.getD_eq_getElem?_getD]

/-- Writing a word through a valid pointer and reading it back through the
same pointer yields the value (for values below `2^32`). -/
theorem mem_write_word_read_word (h : Heap) (id off v : Nat) (buf : List Nat)
    (hbuf : h.lookup id = some buf) (hlen : off + 4 ≤ buf.length)
    (hv : v < 2 ^ 32) :
    mem_read_word (mem_write_word h (some id, off) v) (some id, off) = v := by
  have hl := lookup_mem_write_word h id off v
  rw [hbuf] at hl
  simp only [Option.map_some'] at hl
  have hlen1 : off < buf.length := by omega
  have hlen2 : off + 1 < buf.length := by omega
  have hlen3 : off + 2 < buf.length := by omega
  have hlen4 : off + 3 < buf.length := by omega
  have hb : ∀ i : Nat, i < 4 →
      readPtrByte (mem_write_word h (some id, off) v) (some id, off) i
        = get_byte v i := by
    intro i hi4
    show Heap.readByte _ id (off + i) = _
    unfold Heap.readByte
    simp only [hl]
    interval_cases i
    · simp only [Nat.add_zero]
      rw [getD_set_ne _ _ _ _ (by omega), getD_set_ne _ _ _ _ (by omega),
        getD_set_ne _ _ _ _ (by omega), getD_set_self _ _ _ hlen1]
    · rw [getD_set_ne _ _ _ _ (by omega), getD_set_ne _ _ _ _ (by omega),
        getD_set_self _ _ _ (by simpa using hlen2)]
    · rw [getD_set_ne _ _ _ _ (by omega),
        getD_set_self _ _ _ (by simpa using hlen3)]
    · rw [getD_set_self _ _ _ (by simpa using hlen4)]
  rw [mem_read_word_decode, hb 0 (by omega), hb 1 (by omega), hb 2 (by omega),
    hb 3 (by omega)]
  unfold get_byte
  have e0 : (2 : Nat) ^ (8 * 0) = 1 := by norm_num
  have e1 : (2 : Nat) ^ (8 * 1) = 256 := by norm_num
  have e2 : (2 : Nat) ^ (8 * 2) = 65536 := by norm_num
  have e3 : (2 : Nat) ^ (8 * 3) = 16777216 := by norm_num
  rw [e0, e1, e2, e3]
  have hv' : v < 4294967296 := by omega
  omega

/-- A heap backing the two regions of `cpuT`. -/
def hT : Heap := ⟨2, [(0, List.replicate 16 0), (1, List.replicate 8 0)]⟩

/-- **C7.** For every 4-byte-aligned address whose 4-byte span lies inside a
region's allocated extent and every 32-bit value `v`, `mem_write32` of `v`
followed by `mem_read32` at the same address yields `v`, with the halt flag
(indeed the whole CPU state) untouched by both calls. -/
theorem mem_write32_read32_roundtrip
    (cpu : CpuState) (h : Heap) (addr v i id : Nat) (buf : List Nat)
    (hnum : cpu.memory.num_mem_regions = cpu.memory.mem_regions.length)
    (hov : regionsNoOverflow cpu.memory.mem_regions)
    (hdis : regionsDisjoint cpu.memory.mem_regions)
    (hi : i < cpu.memory.mem_regions.length)
    (hmem : (cpu.memory.mem_regions.get ⟨i, hi⟩).mem = some id)
    (hbuf : h.lookup id = some buf)
    (hlen : buf.length = (cpu.memory.mem_regions.get ⟨i, hi⟩).size)
    (hlo : (cpu.memory.mem_regions.get ⟨i, hi⟩).base_addr ≤ addr)
    (hhi : addr + 4 ≤ (cpu.memory.mem_regions.get ⟨i, hi⟩).base_addr
        + (cpu.memory.mem_regions.get ⟨i, hi⟩).size)
    (hal : addr % 4 = 0) (hv : v < 2 ^ 32) :
    mem_read32 cpu (mem_write32 cpu h addr v).2 addr = (cpu, v)
    ∧ (mem_write32 cpu h addr v).1 = cpu := by
  have hact : activeRegions cpu = cpu.memory.mem_regions := by
    unfold activeRegions
    rw [hnum, List.take_length]
  have hspan : regionSpan (cpu.memory.mem_regions.get ⟨i, hi⟩) addr :=
    ⟨hlo, by omega⟩
  have hfind : mem_find_address cpu addr
      = some ((cpu.memory.mem_regions.get ⟨i, hi⟩).mem,
          addr - (cpu.memory.mem_regions.get ⟨i, hi⟩).base_addr) := by
    unfold mem_find_address
    rw [hact]
    exact findAddressIn_of_span _ addr i hi hov hdis hspan
  rw [hmem] at hfind
  have hoff : (addr - (cpu.memory.mem_regions.get ⟨i, hi⟩).base_addr) + 4
      ≤ buf.length := by
    omega
  constructor
  · simp only [mem_write32, mem_read32, hfind]
    rw [mem_write_word_read_word _ _ _ _ buf hbuf hoff hv]
  · simp only [mem_write32, hfind]

/-- Witness for C7: writing `0xDEADBEEF` at the aligned address 260 inside
the first region of `cpuT` and reading it back returns `0xDEADBEEF` with the
CPU state unchanged. -/
theorem mem_write32_read32_roundtrip_witness :
    mem_read32 cpuT (mem_write32 cpuT hT 260 3735928559).2 260
        = (cpuT, 3735928559)
    ∧ (mem_write32 cpuT hT 260 3735928559).1 = cpuT :=
  mem_write32_read32_roundtrip cpuT hT 260 3735928559 0 0 (List.replicate 16 0)
    (by decide) (by decide) (by decide) (by decide) (by decide) (by decide)
    (by decide) (by decide) (by decide) (by decide) (by decide)

/-- **C8.** Word storage is little-endian: at every translated position,
`mem_write32` of `0x11223344` leaves the four backing-buffer bytes as
`0x44, 0x33, 0x22, 0x11` in increasing offset order, and `mem_read_word`
(the decoder used by `mem_read32` on every translation success) combines 4
consecutive bytes with byte 0 as the least-significant byte of the result. -/
theorem mem_write32_little_endian
    (cpu : CpuState) (h : Heap) (addr id off : Nat) (buf : List Nat)
    (hfind : mem_find_address cpu addr = some (some id, off))
    (hal : addr % 4 = 0)
    (hbuf : h.lookup id = some buf) (hlen : off + 4 ≤ buf.length) :
    (∃ buf2, (mem_write32 cpu h addr 287454020).2.lookup id = some buf2
      ∧ buf2.getD off 0 = 68 ∧ buf2.getD (off + 1) 0 = 51
      ∧ buf2.getD (off + 2) 0 = 34 ∧ buf2.getD (off + 3) 0 = 17)
    ∧ ∀ (h2 : Heap) (p : HostPtr),
        mem_read_word h2 p =
          readPtrByte h2 p 0 % 256 + readPtrByte h2 p 1 % 256 * 256
            + readPtrByte h2 p 2 % 256 * 65536
            + readPtrByte h2 p 3 % 256 * 16777216 := by
  constructor
  · simp only [mem_write32, hfind]
    have hl := lookup_mem_write_word h id off 287454020
    rw [hbuf] at hl
    simp only [Option.map_some'] at hl
    refine ⟨_, hl, ?_, ?_, ?_, ?_⟩
    · rw [getD_set_ne _ _ _ _ (by omega), getD_set_ne _ _ _ _ (by omega),
        getD_set_ne _ _ _ _ (by omega), getD_set_self _ _ _ (by omega)]
      decide
    · rw [getD_set_ne _ _ _ _ (by omega), getD_set_ne _ _ _ _ (by omega),
        getD_set_self _ _ _ (by simp only [List.length_set]; omega)]
      decide
    · rw [getD_set_ne _ _ _ _ (by omega),
        getD_set_self _ _ _ (by simp only [List.length_set]; omega)]
      decide
    · rw [getD_set_self _ _ _ (by simp only [List.length_set]; omega)]
      decide
  · exact fun h2 p => mem_read_word_decode h2 p

/-- Witness for C8: writing `0x11223344` at address 260 of `cpuT` (block 0,
offset 4) leaves the bytes `0x44, 0x33, 0x22, 0x11` at offsets 4..7. -/
theorem mem_write32_little_endian_witness :
    (∃ buf2, (mem_write32 cpuT hT 260 287454020).2.lookup 0 = some buf2
      ∧ buf2.getD 4 0 = 68 ∧ buf2.getD (4 + 1) 0 = 51
      ∧ buf2.getD (4 + 2) 0 = 34 ∧ buf2.getD (4 + 3) 0 = 17)
    ∧ ∀ (h2 : Heap) (p : HostPtr),
        mem_read_word h2 p =
          readPtrByte h2 p 0 % 256 + readPtrByte h2 p 1 % 256 * 256
            + readPtrByte h2 p 2 % 256 * 65536
            + readPtrByte h2 p 3 % 256 * 16777216 :=
  mem_write32_little_endian cpuT hT 260 0 4 (List.replicate 16 0)
    (by decide) (by decide) (by decide) (by decide)

/-! ## Register initialization by the loader -/

/-- **C9.** `mem_load_program` sets the program counter to the user-text
region's base address (`USER_TEXT_START`), the stack-pointer register (x2)
to the stack region's end address (`STACK_END`, which equals the stack
region's `base_addr + max_size`), and the global-pointer register (x3) to
the user-data region's base address (`USER_DATA_START`) — on every call,
unconditionally, for every file system and hence also when the load fails
and an error is returned. -/
theorem mem_load_program_sets_registers (l : Layout) (cpu : CpuState)
    (program_path : String) (fs : FS) (h : Heap)
    (hregs : cpu.regs.length = 32) :
    (mem_load_program l cpu program_path fs h).1.pc = l.USER_TEXT_START
    ∧ (mem_load_program l cpu program_path fs h).1.regs.getD REG_SP 0
        = l.STACK_END
    ∧ (mem_load_program l cpu program_path fs h).1.regs.getD REG_GP 0
        = l.USER_DATA_START
    ∧ (l.STACK_SIZE ≤ l.STACK_END →
        (STACK_REGION l).base_addr + (STACK_REGION l).max_size = l.STACK_END) := by
  refine ⟨rfl, ?_, ?_, ?_⟩
  · show ((cpu.regs.set REG_SP l.STACK_END).set REG_GP
        l.USER_DATA_START).getD REG_SP 0 = l.STACK_END
    rw [List.getD_eq_getElem?_getD, List.getElem?_set_ne (by decide),
      List.getElem?_set_self (by unfold REG_SP; omega)]
    rfl
  · show ((cpu.regs.set REG_SP l.STACK_END).set REG_GP
        l.USER_DATA_START).getD REG_GP 0 = l.USER_DATA_START
    rw [List.getD_eq_getElem?_getD,
      List.getElem?_set_self (by simp only [List.length_set]; unfold REG_GP; omega)]
    rfl
  · intro hss
    simp only [STACK_REGION]
    omega

/-- A witness layout with small, ascending, disjoint segment constants. -/
def lW : Layout :=
  { USER_TEXT_START := 256, USER_DATA_START := 512, STACK_START := 768,
    STACK_END := 776, STACK_SIZE := 8, KERNEL_TEXT_START := 1024,
    KERNEL_DATA_START := 1280 }

/-- A fresh CPU state with 32 zeroed registers and no regions. -/
def cpuZ : CpuState :=
  { pc := 0, regs := List.replicate 32 0, halted := false,
    memory := { num_mem_regions := 0, mem_regions := [] } }

/-- The empty file system: every `fopen` fails. -/
def fsEmpty : FS := ⟨[]⟩

/-- Witness for C9: with an empty file system the load fails (negative
return code), and the PC, stack pointer and global pointer are still set to
the layout's segment constants. -/
theorem mem_load_program_sets_registers_witness :
    (mem_load_program lW cpuZ "p" fsEmpty ⟨0, []⟩).2.2.1 < 0
    ∧ ((mem_load_program lW cpuZ "p" fsEmpty ⟨0, []⟩).1.pc = lW.USER_TEXT_START
      ∧ (mem_load_program lW cpuZ "p" fsEmpty ⟨0, []⟩).1.regs.getD REG_SP 0
          = lW.STACK_END
      ∧ (mem_load_program lW cpuZ "p" fsEmpty ⟨0, []⟩).1.regs.getD REG_GP 0
          = lW.USER_DATA_START
      ∧ (lW.STACK_SIZE ≤ lW.STACK_END →
          (STACK_REGION lW).base_addr + (STACK_REGION lW).max_size
            = lW.STACK_END)) :=
  ⟨by decide, mem_load_program_sets_registers lW cpuZ "p" fsEmpty ⟨0, []⟩
    (by decide)⟩

/-! ## The all-or-nothing load -/

/-- A well-formed heap: block identifiers are unique and below the
fresh-identifier counter. -/
def HeapWF (h : Heap) : Prop :=
  (h.blocks.map Prod.fst).Nodup ∧ ∀ e ∈ h.blocks, e.1 < h.next

instance (h : Heap) : Decidable (HeapWF h) := by
  unfold HeapWF
  infer_instance

theorem unloadRegions_all_none :
    ∀ (rs : List MemRegion) (h : Heap), (∀ r ∈ rs, r.mem = none) →
    unloadRegions rs h = some h := by
  intro rs
  induction rs with
  | nil => intro h _; rfl
  | cons r rs ih =>
    intro h hnone
    have h1 : r.mem = none := hnone r (by simp)
    simp only [unloadRegions, h1]
    exact ih h (fun s hs => hnone s (by simp [hs]))

theorem unloadRegions_append :
    ∀ (xs ys : List MemRegion) (h : Heap),
    unloadRegions (xs ++ ys) h
      = (unloadRegions xs h).bind (unloadRegions ys) := by
  intro xs
  induction xs with
  | nil => intro ys h; rfl
  | cons x xs ih =>
    intro ys h
    rcases hx : x.mem with _ | id
    · simp only [List.cons_append, unloadRegions, hx]
      exact ih ys h
    · simp only [List.cons_append, unloadRegions, hx]
      by_cases ho : Heap.owns h id = true
      · simp only [ho, if_true]
        exact ih ys (h.free id)
      · simp only [ho, if_false]
        rfl

/-- The correspondence between a run of initialized regions and the heap
blocks allocated for them, in allocation order. -/
inductive RegionBlocksMatch : List MemRegion → List (Nat × List Nat) → Prop
  | nil : RegionBlocksMatch [] []
  | cons (r : MemRegion) (id : Nat) (buf : List Nat) (rs : List MemRegion)
      (extra : List (Nat × List Nat)) :
      r.mem = some id → RegionBlocksMatch rs extra →
      RegionBlocksMatch (r :: rs) ((id, buf) :: extra)

theorem RegionBlocksMatch.append_one :
    ∀ {rs : List MemRegion} {extra : List (Nat × List Nat)},
    RegionBlocksMatch rs extra → ∀ (r : MemRegion) (id : Nat) (buf : List Nat),
    r.mem = some id →
    RegionBlocksMatch (rs ++ [r]) (extra ++ [(id, buf)]) := by
  intro rs extra hm
  induction hm with
  | nil =>
    intro r id buf hr
    exact .cons r id buf [] [] hr .nil
  | cons r0 id0 buf0 rs0 extra0 hr0 hm0 ih =>
    intro r id buf hr
    exact .cons r0 id0 buf0 _ _ hr0 (ih r id buf hr)

/-- Unloading the regions of a matched run from a heap whose blocks are a
base followed by exactly that run's blocks frees the run's blocks and
nothing else. -/
theorem unloadRegions_matches :
    ∀ {done : List MemRegion} {extra : List (Nat × List Nat)},
    RegionBlocksMatch done extra →
    ∀ (B : List (Nat × List Nat)) (n : Nat),
    ((B ++ extra).map Prod.fst).Nodup →
    unloadRegions done ⟨n, B ++ extra⟩ = some ⟨n, B⟩ := by
  intro done extra hm
  induction hm with
  | nil =>
    intro B n _
    simp [unloadRegions]
  | cons r id buf rs extra hr hm ih =>
    intro B n hnodup
    have hkeys : (B.map Prod.fst ++ id :: extra.map Prod.fst).Nodup := by
      simpa using hnodup
    have hparts := List.nodup_append.mp hkeys
    have hidB : ∀ e ∈ B, e.1 ≠ id := by
      intro e he heq
      exact (hparts.2.2 (List.mem_map_of_mem Prod.fst he)) (by simp [heq])
    have hidE : ∀ e ∈ extra, e.1 ≠ id := by
      intro e he heq
      exact (List.nodup_cons.mp hparts.2.1).1
        (heq ▸ List.mem_map_of_mem Prod.fst he)
    have howns : Heap.owns ⟨n, B ++ (id, buf) :: extra⟩ id = true := by
      simp [Heap.owns]
    have hfree : Heap.free ⟨n, B ++ (id, buf) :: extra⟩ id
        = ⟨n, B ++ extra⟩ := by
      unfold Heap.free
      congr 1
      simp only [List.filter_append, List.filter_cons]
      have e1 : List.filter (fun b => !decide (b.1 = id)) B = B :=
        List.filter_eq_self.mpr (fun e he => by simp [hidB e he])
      have e2 : List.filter (fun b => !decide (b.1 = id)) extra = extra :=
        List.filter_eq_self.mpr (fun e he => by simp [hidE e he])
      simp [e1, e2]
    have hnodup2 : ((B ++ extra).map Prod.fst).Nodup := by
      have hsub : (B ++ extra).Sublist (B ++ (id, buf) :: extra) :=
        List.Sublist.append_left (List.sublist_cons_self _ _) B
      exact (hnodup.sublist (hsub.map Prod.fst))
    simp only [unloadRegions, hr, howns, if_true, hfree]
    exact ih B n hnodup2

/-- Writing a byte into the last block of a heap whose other blocks have
different identifiers touches only that block. -/
theorem writeByte_partition (next id off b : Nat) (P : List (Nat × List Nat))
    (buf : List Nat) (hP : ∀ e ∈ P, e.1 ≠ id) :
    Heap.writeByte ⟨next, P ++ [(id, buf)]⟩ id off b
      = ⟨next, P ++ [(id, buf.set off b)]⟩ := by
  unfold Heap.writeByte
  congr 1
  rw [List.map_append]
  have e1 : ∀ (Q : List (Nat × List Nat)), (∀ e ∈ Q, e.1 ≠ id) →
      Q.map (fun x => if x.1 = id then (x.1, x.2.set off b) else x) = Q := by
    intro Q hQ
    induction Q with
    | nil => rfl
    | cons q Qs ihQ =>
      simp only [List.map_cons, if_neg (hQ q (by simp))]
      rw [ihQ (fun e he => hQ e (by simp [he]))]
  rw [e1 P hP]
  simp

/-- `mem_write_word` through a pointer into the last block of such a heap
keeps the heap's partition shape. -/
theorem mem_write_word_partition (next id off v : Nat)
    (P : List (Nat × List Nat)) (buf : List Nat)
    (hP : ∀ e ∈ P, e.1 ≠ id) :
    ∃ buf2, mem_write_word ⟨next, P ++ [(id, buf)]⟩ (some id, off) v
      = ⟨next, P ++ [(id, buf2)]⟩ := by
  refine ⟨(((buf.set (off + 0) (get_byte v 0)).set (off + 1) (get_byte v 1)).set
      (off + 2) (get_byte v 2)).set (off + 3) (get_byte v 3), ?_⟩
  simp only [mem_write_word, writePtrByte]
  rw [writeByte_partition _ _ _ _ _ _ hP, writeByte_partition _ _ _ _ _ _ hP,
    writeByte_partition _ _ _ _ _ _ hP, writeByte_partition _ _ _ _ _ _ hP]

/-- The `load_hex_file` loop only ever writes into the region's own block:
a heap of the shape (other blocks ++ the region's block) keeps that shape,
with the same identifiers and counter. -/
theorem loadHexLines_partition :
    ∀ (lines : List (List Char)) (next : Nat) (P : List (Nat × List Nat))
      (id : Nat) (buf : List Nat) (path : String) (ln : Nat),
    (∀ e ∈ P, e.1 ≠ id) →
    ∃ buf2, (loadHexLines ⟨next, P ++ [(id, buf)]⟩ (some id) path ln lines).1
      = ⟨next, P ++ [(id, buf2)]⟩ := by
  intro lines
  induction lines with
  | nil =>
    intro next P id buf path ln _
    exact ⟨buf, rfl⟩
  | cons line rest ih =>
    intro next P id buf path ln hP
    rcases hp : parse_uint32_hex (stripNewline line) with _ | v
    · exact ⟨buf, by simp only [loadHexLines, hp]⟩
    · obtain ⟨buf1, hw⟩ := mem_write_word_partition next id (ln * 4) v P buf hP
      obtain ⟨buf2, hrec⟩ := ih next P id buf1 path (ln + 1) hP
      refine ⟨buf2, ?_⟩
      simp only [loadHexLines, hp, hw]
      exact hrec

/-- Case analysis of `load_mem_region` on a region template whose buffer
pointer is NULL: on failure the heap's blocks are unchanged, the counter has
not decreased and the region's pointer is still NULL; on success exactly one
fresh block (identifier `h.next`) has been appended and the region points to
it. -/
theorem load_mem_region_cases (h : Heap) (tmpl : MemRegion) (hex_path : String)
    (fs : FS) (htmpl : tmpl.mem = none)
    (hbound : ∀ e ∈ h.blocks, e.1 < h.next) :
    ((load_mem_region h tmpl hex_path fs).2.2.1 < 0 →
      (load_mem_region h tmpl hex_path fs).1.blocks = h.blocks
      ∧ h.next ≤ (load_mem_region h tmpl hex_path fs).1.next
      ∧ (load_mem_region h tmpl hex_path fs).2.1.mem = none)
    ∧ (¬ (load_mem_region h tmpl hex_path fs).2.2.1 < 0 →
      ∃ buf2, (load_mem_region h tmpl hex_path fs).1.blocks
          = h.blocks ++ [(h.next, buf2)]
        ∧ (load_mem_region h tmpl hex_path fs).1.next = h.next + 1
        ∧ (load_mem_region h tmpl hex_path fs).2.1.mem = some h.next) := by
  have hP : ∀ e ∈ h.blocks, e.1 ≠ h.next := by
    intro e he
    have := hbound e he
    omega
  rcases hlk : fs.lookup hex_path with _ | lines
  · simp only [load_mem_region, hlk]
    constructor
    · intro _
      simp [htmpl]
    · intro habs
      exact absurd (show (-2 : Int) < 0 by decide) habs
  · by_cases hsz : fileSize lines / MEM_FILE_LINE_LEN * 4 > tmpl.max_size
    · simp only [load_mem_region, hlk]
      rw [if_pos (by simpa using hsz)]
      constructor
      · intro _
        refine ⟨rfl, le_refl _, ?_⟩
        simpa using htmpl
      · intro habs
        exact absurd (show -EFBIG < 0 by decide) habs
    · obtain ⟨buf2, hpart⟩ := loadHexLines_partition lines (h.next + 1) h.blocks
        h.next (List.replicate (fileSize lines / MEM_FILE_LINE_LEN * 4) 0)
        hex_path 0 hP
      simp only [load_mem_region, hlk]
      rw [if_neg (by simpa using hsz)]
      simp only [load_hex_file, Heap.alloc]
      by_cases hrc : (loadHexLines
          ⟨h.next + 1, h.blocks
            ++ [(h.next, List.replicate
                  (fileSize lines / MEM_FILE_LINE_LEN * 4) 0)]⟩
          (some h.next) hex_path 0 lines).2.1 < 0
      · rw [if_pos hrc]
        constructor
        · intro _
          refine ⟨?_, ?_, rfl⟩
          · rw [hpart]
            unfold Heap.free
            simp only [List.filter_append, List.filter_cons]
            have e1 : List.filter (fun b => !decide (b.1 = h.next)) h.blocks
                = h.blocks :=
              List.filter_eq_self.mpr (fun e he => by simp [hP e he])
            simp [e1]
          · rw [hpart]
            simp [Heap.free]
        · intro habs
          exact absurd hrc habs
      · rw [if_neg hrc]
        constructor
        · intro hneg
          exact absurd hneg hrc
        · intro _
          exact ⟨buf2, by rw [hpart], by rw [hpart], rfl⟩

theorem nodup_append_fresh (l : List (Nat × List Nat)) (n : Nat) (b : List Nat)
    (hnd : (l.map Prod.fst).Nodup) (hb : ∀ e ∈ l, e.1 < n) :
    ((l ++ [(n, b)]).map Prod.fst).Nodup := by
  rw [List.map_append]
  refine List.nodup_append.mpr ⟨hnd, by simp, ?_⟩
  intro a ha hmem
  obtain ⟨e, he, rfl⟩ := List.mem_map.mp ha
  have h1 := hb e he
  have h2 : e.1 = n := by simpa using hmem
  omega

theorem mem_replicate_zeroRegion (k : Nat) :
    ∀ r ∈ List.replicate k zeroRegion, r.mem = none := by
  intro r hr
  rw [List.eq_of_mem_replicate hr]
  rfl

/-- If the region loop of `mem_load_program` fails, the rollback inside it
restores exactly the base heap blocks: every block allocated by this call
(recorded by the `RegionBlocksMatch` invariant) is freed. -/
theorem loadLoop_error_blocks (fs : FS) (path : String) :
    ∀ (templates done : List MemRegion) (h : Heap) (diags : List Diag)
      (B extra : List (Nat × List Nat)),
    (∀ t ∈ templates, t.mem = none) →
    h.blocks = B ++ extra →
    RegionBlocksMatch done extra →
    (h.blocks.map Prod.fst).Nodup →
    (∀ e ∈ h.blocks, e.1 < h.next) →
    (loadLoop fs path templates done h diags).2.2.1 < 0 →
    (loadLoop fs path templates done h diags).2.1.blocks = B := by
  intro templates
  induction templates with
  | nil =>
    intro done h diags B extra _ _ _ _ _ hrc
    exact absurd hrc (by simp [loadLoop])
  | cons tmpl rest ih =>
    intro done h diags B extra htmpl hblocks hmatch hnodup hbound hrc
    have htm : tmpl.mem = none := htmpl tmpl (by simp)
    have htrest : ∀ t ∈ rest, t.mem = none := fun t ht => htmpl t (by simp [ht])
    rcases hext : tmpl.hex_extension with _ | ext
    · simp only [loadLoop, hext] at hrc ⊢
      refine ih
        (done ++ [{ tmpl with
                    size := tmpl.max_size, mem := some h.next,
                    hex_extension := none }])
        ⟨h.next + 1, h.blocks ++ [(h.next, List.replicate tmpl.max_size 0)]⟩
        diags B (extra ++ [(h.next, List.replicate tmpl.max_size 0)])
        htrest ?_ (hmatch.append_one _ _ _ rfl) ?_ ?_ hrc
      · show h.blocks ++ _ = _
        rw [hblocks, List.append_assoc]
      · exact nodup_append_fresh h.blocks h.next _ hnodup hbound
      · intro e he
        show e.1 < h.next + 1
        rcases List.mem_append.mp he with h1 | h1
        · have := hbound e h1
          omega
        · have h3 : e = (h.next, List.replicate tmpl.max_size 0) := by
            simpa using h1
          have h2 : e.1 = h.next := by rw [h3]
          omega
    · simp only [loadLoop, hext] at hrc ⊢
      have hcases := load_mem_region_cases h tmpl (path ++ ext) fs htm hbound
      by_cases hrc2 : (load_mem_region h tmpl (path ++ ext) fs).2.2.1 < 0
      · rw [if_pos hrc2]
        obtain ⟨hb2, hn2, hm2⟩ := hcases.1 hrc2
        have heta : (load_mem_region h tmpl (path ++ ext) fs).1
            = ⟨(load_mem_region h tmpl (path ++ ext) fs).1.next, B ++ extra⟩ := by
          rw [show (load_mem_region h tmpl (path ++ ext) fs).1
              = ⟨(load_mem_region h tmpl (path ++ ext) fs).1.next,
                 (load_mem_region h tmpl (path ++ ext) fs).1.blocks⟩ from rfl,
            hb2, hblocks]
        have hsplit : unloadRegions
            (done ++ [(load_mem_region h tmpl (path ++ ext) fs).2.1]
              ++ List.replicate rest.length zeroRegion)
            (load_mem_region h tmpl (path ++ ext) fs).1
            = some ⟨(load_mem_region h tmpl (path ++ ext) fs).1.next, B⟩ := by
          rw [List.append_assoc, unloadRegions_append, heta]
          rw [unloadRegions_matches hmatch B _ (by rw [← hblocks]; exact hnodup)]
          show unloadRegions _ _ = _
          refine unloadRegions_all_none _ _ ?_
          intro r hr
          rcases List.mem_append.mp hr with h1 | h1
          · have h2 : r = (load_mem_region h tmpl (path ++ ext) fs).2.1 := by
              simpa using h1
            rw [h2]
            exact hm2
          · exact mem_replicate_zeroRegion _ r h1
        show (Option.getD (unloadRegions _ _) _).blocks = B
        rw [hsplit]
        rfl
      · rw [if_neg hrc2] at hrc ⊢
        obtain ⟨buf2, hb2, hn2, hm2⟩ := hcases.2 hrc2
        refine ih (done ++ [(load_mem_region h tmpl (path ++ ext) fs).2.1])
          (load_mem_region h tmpl (path ++ ext) fs).1
          (diags ++ (load_mem_region h tmpl (path ++ ext) fs).2.2.2)
          B (extra ++ [(h.next, buf2)]) htrest ?_
          (hmatch.append_one _ _ _ hm2) ?_ ?_ hrc
        · rw [hb2, hblocks, List.append_assoc]
        · rw [hb2]
          exact nodup_append_fresh h.blocks h.next _ hnodup hbound
        · intro e he
          rw [hb2] at he
          rw [hn2]
          rcases List.mem_append.mp he with h1 | h1
          · have := hbound e h1
            omega
          · have h2 : e.1 = h.next := by
              have h3 : e = (h.next, buf2) := by simpa using h1
              rw [h3]
            omega

/-- If line `j` (0-based) is the first line of the file that does not parse
as a 32-bit hexadecimal word, the `load_hex_file` loop started at line
number `ln` emits exactly the diagnostic naming the file path, line number
`ln + j` and the stripped offending text, and returns the negative parse
code when that line is newline-terminated — but 0 (success) when it is an
unterminated final line, because the end-of-file indicator is then set and
the function returns `(feof(hex_file)) ? 0 : rc`. -/
theorem loadHexLines_first_bad_line :
    ∀ (lines : List (List Char)) (h : Heap) (memPtr : Option Nat)
      (path : String) (ln j : Nat),
    j < lines.length →
    (∀ k, k < j → (parse_uint32_hex (stripNewline (lines.getD k []))).isSome) →
    parse_uint32_hex (stripNewline (lines.getD j [])) = none →
    (loadHexLines h memPtr path ln lines).2 =
      ((if (lines.getD j []).contains '\n' then -1 else 0 : Int),
       [Diag.parseError path (ln + j) (stripNewline (lines.getD j []))]) := by
  intro lines
  induction lines with
  | nil =>
    intro h mp path ln j hj _ _
    exact absurd hj (by simp)
  | cons line rest ih =>
    intro h mp path ln j hj hok hbad
    cases j with
    | zero =>
      have hb : parse_uint32_hex (stripNewline line) = none := by
        simpa using hbad
      simp only [loadHexLines, hb]
      simp
    | succ j2 =>
      have h0 : (parse_uint32_hex (stripNewline line)).isSome := by
        simpa using hok 0 (by omega)
      obtain ⟨v, hv⟩ := Option.isSome_iff_exists.mp h0
      simp only [loadHexLines, hv, List.getD_cons_succ]
      have hrec := ih (mem_write_word h (mp, ln * 4) v) mp path (ln + 1) j2
        (by simpa using hj)
        (fun k hk => by simpa using hok (k + 1) (by omega))
        (by simpa using hbad)
      rw [hrec]
      have harith : ln + 1 + j2 = ln + (j2 + 1) := by omega
      rw [harith]

/-- Whenever `mem_load_program` does return an error, the rollback inside it
is complete: the heap ends with exactly the blocks it started with.  (This
is the half of the all-or-nothing policy the code does honour; the C3
theorem below shows the other half — that a parse failure always produces
an error — fails on an unterminated final line.) -/
theorem mem_load_program_error_rollback (l : Layout) (cpu : CpuState)
    (program_path : String) (fs : FS) (h : Heap) (hwf : HeapWF h)
    (hrc : (mem_load_program l cpu program_path fs h).2.2.1 < 0) :
    (mem_load_program l cpu program_path fs h).2.1.blocks = h.blocks := by
  have htmpl : ∀ t ∈ MEM_REGIONS l, t.mem = none := by
    intro t ht
    simp only [MEM_REGIONS, List.mem_cons, List.not_mem_nil, or_false] at ht
    rcases ht with rfl | rfl | rfl | rfl | rfl <;> rfl
  exact loadLoop_error_blocks fs program_path (MEM_REGIONS l) [] h [] h.blocks
    [] htmpl (by simp) .nil hwf.1 hwf.2 hrc

/-- A file system whose user-text hex file ends with a malformed final line
that has no terminating newline (raw contents `"1234ABCD\nZZZZZZZZ"`); the
other region files are present and well-formed. -/
def fsU : FS :=
  ⟨[("p.text.hex", ["1234ABCD\n".toList, "ZZZZZZZZ".toList]),
    ("p.data.hex", ["11111111\n".toList]),
    ("p.ktext.hex", []),
    ("p.kdata.hex", [])]⟩

/-- **C3.**  The claim fails on the code: `load_hex_file` ends with
`return (feof(hex_file)) ? 0 : rc;` (memory.c:203), and `getline` sets the
stream's end-of-file indicator while reading an unterminated final line, so
a parse failure on such a line is reported as *success*.  At the failing
input `fsU` (user-text file `"1234ABCD\nZZZZZZZZ"`, other files valid):
the region-level load returns 0, the whole `mem_load_program` returns 0 —
not an error — while the parse-error diagnostic for 0-based line 1 with the
offending text was emitted, and nothing is rolled back: all five region
buffers remain allocated, the user-text buffer (block 0) holding the one
word that did parse.  A partially loaded program state is thus observable
by the caller, contradicting the claim; the claimed behaviour (error + full
release) does hold whenever an error *is* returned
(`mem_load_program_error_rollback`), so the stray `feof` success is the
slip.  (The failing input's lines are exactly 9 bytes, so no store in this
run is out of bounds.) -/
theorem mem_load_program_parse_error_reports_success :
    (load_mem_region ⟨0, []⟩ (USER_TEXT_REGION lW) "p.text.hex" fsU).2.2.1 = 0
    ∧ (mem_load_program lW cpuZ "p" fsU ⟨0, []⟩).2.2.1 = 0
    ∧ (mem_load_program lW cpuZ "p" fsU ⟨0, []⟩).2.2.2
        = [Diag.parseError "p.text.hex" 1 "ZZZZZZZZ".toList]
    ∧ (mem_load_program lW cpuZ "p" fsU ⟨0, []⟩).2.1.lookup 0
        = some [205, 171, 52, 18]
    ∧ (mem_load_program lW cpuZ "p" fsU ⟨0, []⟩).2.1.blocks.length = 5 := by
  refine ⟨by decide, by decide, by decide, by decide, by decide⟩

/-- One unfolding step of the region loop: a region whose hex file fails to
load makes the loop break, roll back and return that failure code. -/
theorem loadLoop_first_fails (fs : FS) (path : String) (tmpl : MemRegion)
    (rest done : List MemRegion) (h : Heap) (diags : List Diag) (ext : String)
    (hext : tmpl.hex_extension = some ext)
    (hrc : (load_mem_region h tmpl (path ++ ext) fs).2.2.1 < 0) :
    loadLoop fs path (tmpl :: rest) done h diags
      = (done ++ [(load_mem_region h tmpl (path ++ ext) fs).2.1]
          ++ List.replicate rest.length zeroRegion,
         (unloadRegions (done ++ [(load_mem_region h tmpl (path ++ ext) fs).2.1]
            ++ List.replicate rest.length zeroRegion)
            (load_mem_region h tmpl (path ++ ext) fs).1).getD
           (load_mem_region h tmpl (path ++ ext) fs).1,
         (load_mem_region h tmpl (path ++ ext) fs).2.2.1,
         diags ++ (load_mem_region h tmpl (path ++ ext) fs).2.2.2) := by
  simp only [loadLoop, hext]
  rw [if_pos hrc]

/-- **C6.** When loading a region from a hex file, the region's size is
computed from the file's byte length as
`size = file_bytes / MEM_FILE_LINE_LEN * 4` (8 hex digits plus newline, 9
bytes per line); if that size exceeds the region's `max_size`, the load
fails with the oversize error (`-EFBIG`) before any allocation: the heap is
returned untouched and the region's buffer pointer stays NULL.  At the
`mem_load_program` level (shown for the user-text region), the call returns
`-EFBIG` and leaves the heap blocks exactly as they were — no buffers remain
allocated for that load. -/
theorem load_mem_region_oversize :
    (∀ (h : Heap) (mr : MemRegion) (hex_path : String) (fs : FS)
        (lines : List (List Char)),
      fs.lookup hex_path = some lines →
      ((load_mem_region h mr hex_path fs).2.1.size
          = fileSize lines / MEM_FILE_LINE_LEN * 4
        ∧ (fileSize lines / MEM_FILE_LINE_LEN * 4 > mr.max_size →
            load_mem_region h mr hex_path fs
              = (h, { mr with size := fileSize lines / MEM_FILE_LINE_LEN * 4 },
                 -EFBIG, [Diag.oversizeError hex_path]))))
    ∧ (∀ (l : Layout) (cpu : CpuState) (program_path : String) (fs : FS)
        (h : Heap) (lines : List (List Char)),
      fs.lookup (program_path ++ ".text.hex") = some lines →
      fileSize lines / MEM_FILE_LINE_LEN * 4
          > l.USER_DATA_START - l.USER_TEXT_START →
      (mem_load_program l cpu program_path fs h).2.2.1 = -EFBIG
      ∧ (mem_load_program l cpu program_path fs h).2.1.blocks = h.blocks) := by
  have key : ∀ (h : Heap) (mr : MemRegion) (hex_path : String) (fs : FS)
      (lines : List (List Char)),
      fs.lookup hex_path = some lines →
      fileSize lines / MEM_FILE_LINE_LEN * 4 > mr.max_size →
      load_mem_region h mr hex_path fs
        = (h, { mr with size := fileSize lines / MEM_FILE_LINE_LEN * 4 },
           -EFBIG, [Diag.oversizeError hex_path]) := by
    intro h mr hex_path fs lines hlk hsz
    simp only [load_mem_region, hlk]
    rw [if_pos (by simpa using hsz)]
  constructor
  · intro h mr hex_path fs lines hlk
    constructor
    · simp only [load_mem_region, hlk]
      by_cases hsz : fileSize lines / MEM_FILE_LINE_LEN * 4 > mr.max_size
      · rw [if_pos (by simpa using hsz)]
      · rw [if_neg (by simpa using hsz)]
        split <;> rfl
    · exact key h mr hex_path fs lines hlk
  · intro l cpu program_path fs h lines hlk hbig
    have kres := key h (USER_TEXT_REGION l) (program_path ++ ".text.hex") fs
      lines hlk (by simpa [USER_TEXT_REGION] using hbig)
    have e1 := loadLoop_first_fails fs program_path (USER_TEXT_REGION l)
      [USER_DATA_REGION l, STACK_REGION l, KERNEL_TEXT_REGION l,
       KERNEL_DATA_REGION l] [] h [] ".text.hex" rfl
      (by rw [kres]; show -EFBIG < 0; decide)
    have e2 : loadLoop fs program_path (MEM_REGIONS l) [] h []
        = loadLoop fs program_path (USER_TEXT_REGION l
            :: [USER_DATA_REGION l, STACK_REGION l, KERNEL_TEXT_REGION l,
                KERNEL_DATA_REGION l]) [] h [] := rfl
    have hnone : ∀ r ∈ ([] : List MemRegion)
        ++ [(load_mem_region h (USER_TEXT_REGION l)
              (program_path ++ ".text.hex") fs).2.1]
        ++ List.replicate
            ([USER_DATA_REGION l, STACK_REGION l, KERNEL_TEXT_REGION l,
              KERNEL_DATA_REGION l] : List MemRegion).length zeroRegion,
        r.mem = none := by
      intro r hr
      rw [kres] at hr
      simp only [List.nil_append, List.mem_append, List.mem_singleton] at hr
      rcases hr with rfl | hr
      · rfl
      · exact mem_replicate_zeroRegion _ r hr
    constructor
    · show (loadLoop fs program_path (MEM_REGIONS l) [] h []).2.2.1 = -EFBIG
      rw [e2, e1, kres]
    · show (loadLoop fs program_path (MEM_REGIONS l) [] h []).2.1.blocks
        = h.blocks
      rw [e2, e1]
      show ((unloadRegions _ _).getD _).blocks = h.blocks
      rw [unloadRegions_all_none _ _ hnone, kres]
      rfl

/-- A file system whose user-text hex file has 65 lines (585 bytes, decoding
to 260 bytes), exceeding the witness layout's 256-byte user-text region. -/
def fsBigW : FS :=
  ⟨[("p.text.hex", List.replicate 65 "00000000\n".toList)]⟩

/-- Witness for C6: the 585-byte file decodes to size 585 / 9 * 4 = 260 >
256 = max_size, so the region load fails with `-EFBIG` and no allocation,
and the whole program load returns `-EFBIG` with the heap still empty. -/
theorem load_mem_region_oversize_witness :
    ((load_mem_region ⟨0, []⟩ (USER_TEXT_REGION lW) "p.text.hex"
        fsBigW).2.1.size = 260
      ∧ load_mem_region ⟨0, []⟩ (USER_TEXT_REGION lW) "p.text.hex" fsBigW
          = (⟨0, []⟩, { USER_TEXT_REGION lW with size := 260 }, -EFBIG,
             [Diag.oversizeError "p.text.hex"]))
    ∧ ((mem_load_program lW cpuZ "p" fsBigW ⟨0, []⟩).2.2.1 = -EFBIG
      ∧ (mem_load_program lW cpuZ "p" fsBigW ⟨0, []⟩).2.1.blocks = []) :=
  ⟨⟨(load_mem_region_oversize.1 ⟨0, []⟩ (USER_TEXT_REGION lW) "p.text.hex"
      fsBigW (List.replicate 65 "00000000\n".toList) (by decide)).1,
    (load_mem_region_oversize.1 ⟨0, []⟩ (USER_TEXT_REGION lW) "p.text.hex"
      fsBigW (List.replicate 65 "00000000\n".toList) (by decide)).2
      (by decide)⟩,
   load_mem_region_oversize.2 lW cpuZ "p" fsBigW ⟨0, []⟩
     (List.replicate 65 "00000000\n".toList) (by decide) (by decide)⟩
